import Mathlib

set_option maxHeartbeats 1000000

/-!
Shallow embedding of the `traefik-lang-redirect` Traefik middleware plugin
(`lang_redirect.go`).  Go strings are modelled as Lean `String`s; the Go
standard-library helpers used by the plugin (`strings.Split`,
`strings.SplitN`, `strings.TrimSpace`, `net/url` query parsing/encoding)
are modelled below on `List Char`.  The HTTP request is modelled by the
three pieces of state the plugin ever reads or writes: the
`Accept-Language` header value, the URL path and the raw query string.
The response writer is modelled by a small inductive recording whether a
redirect or an error status was written; the downstream handler (`next`)
is abstracted by a `nextCalled` flag in the result of `ServeHTTP`.
Percent-escaping of query strings and UTF-8 byte-length subtleties are
elided (no claim below depends on them).
-/

/-- Model of Go `strings.Split` for a single-character separator, on char
lists.  Like Go, splitting the empty string yields `[[]]` (one empty
piece). -/
def splitChar (sep : Char) : List Char → List (List Char)
  | [] => [[]]
  | c :: cs =>
    match splitChar sep cs with
    | [] => [[]]
    | r :: rs => if c = sep then [] :: r :: rs else (c :: r) :: rs

/-- Go `strings.Split(s, sep)` for a one-character separator. -/
def goSplit (s : String) (sep : Char) : List String :=
  (splitChar sep s.data).map String.mk

/-- Trim whitespace from both ends of a char list (model of Go
`strings.TrimSpace`). -/
def trimList (l : List Char) : List Char :=
  ((l.dropWhile Char.isWhitespace).reverse.dropWhile Char.isWhitespace).reverse

/-- Go `strings.TrimSpace`. -/
def trimSpace (s : String) : String :=
  String.mk (trimList s.data)

/-- The plugin configuration (`Config` struct). -/
structure Config where
  Languages : List String
  DefaultLanguage : String
  DefaultLanguageHandling : Bool
  LanguageStrategy : String
  LanguageParam : String
  RedirectAfterHandling : Bool
deriving DecidableEq, Repr

def StrategyHeader : String := "header"

def StrategyPath : String := "path"

def StrategyQuery : String := "query"

/-- `CreateConfig` returns the default plugin configuration. -/
def CreateConfig : Config :=
  { Languages := []
    DefaultLanguage := ""
    DefaultLanguageHandling := false
    LanguageStrategy := "header"
    LanguageParam := "lang"
    RedirectAfterHandling := false }

/-- The request state the plugin reads or mutates: the `Accept-Language`
header, `r.URL.Path` and `r.URL.RawQuery`. -/
structure Request where
  acceptLanguage : String
  path : String
  rawQuery : String
deriving DecidableEq, Repr

/-- The response-writer state: untouched, or a redirect / error status
written to it. -/
inductive Response where
  | empty
  | redirect (status : Nat) (location : String)
  | error (status : Nat) (message : String)
deriving DecidableEq, Repr

/-- Result of one `ServeHTTP` invocation: final response-writer state,
final request state, and whether `g.next.ServeHTTP` was invoked. -/
structure ServeResult where
  response : Response
  request : Request
  nextCalled : Bool
deriving DecidableEq, Repr

/-- `r.URL.String()` for a server-side (path + query) URL. -/
def urlString (r : Request) : String :=
  if r.rawQuery = "" then r.path else r.path ++ "?" ++ r.rawQuery

/-- The `Strategy` interface: `GetLanguage` reads the language currently
encoded in the request; `SetLanguage(w, r, language)` mutates the
request (and could mutate the response writer, hence its signature). -/
structure Strategy where
  GetLanguage : Request → String
  SetLanguage : Response → Request → String → Response × Request

def HeaderStrategy.GetLanguage (r : Request) : String :=
  r.acceptLanguage

def HeaderStrategy.SetLanguage (w : Response) (r : Request) (language : String) :
    Response × Request :=
  (w, { r with acceptLanguage := language })

def PathStrategy.GetLanguage (r : Request) : String :=
  match goSplit r.path '/' with
  | _ :: s :: _ => if s.length = 2 then s else ""
  | _ => ""

def PathStrategy.SetLanguage (w : Response) (r : Request) (language : String) :
    Response × Request :=
  if r.path = "/" then (w, { r with path := "/" ++ language })
  else (w, { r with path := "/" ++ language ++ r.path })

/-- Model of `url.ParseQuery` (percent-unescaping elided): split on
`&`, skip empty segments, split each segment at the first `=`. -/
def parseQuery (s : String) : List (String × String) :=
  (goSplit s '&').filterMap fun part =>
    if part = "" then none
    else
      match goSplit part '=' with
      | [] => some (part, "")
      | k :: vs => some (k, String.intercalate "=" vs)

/-- `url.Values.Set`: drop every pair with the given key; the single new
pair's final position is fixed by the key sort in `encodeQuery`. -/
def querySet (q : List (String × String)) (key value : String) :
    List (String × String) :=
  (q.filter fun p => p.1 != key) ++ [(key, value)]

/-- Insertion step for sorting pairs by key (`url.Values.Encode` emits
keys in sorted order). -/
def insertByKey (p : String × String) :
    List (String × String) → List (String × String)
  | [] => [p]
  | q :: qs =>
    match compare p.1 q.1 with
    | Ordering.gt => q :: insertByKey p qs
    | _ => p :: q :: qs

/-- Model of `url.Values.Encode` (percent-escaping elided): key-sorted
`k=v` pairs joined by `&`. -/
def encodeQuery (q : List (String × String)) : String :=
  String.intercalate "&" ((q.foldr insertByKey []).map fun p => p.1 ++ "=" ++ p.2)

def QueryStrategy.GetLanguage (languageParam : String) (r : Request) : String :=
  (((parseQuery r.rawQuery).find? fun p => p.1 == languageParam).map Prod.snd).getD ""

def QueryStrategy.SetLanguage (languageParam : String) (w : Response) (r : Request)
    (language : String) : Response × Request :=
  (w, { r with rawQuery := encodeQuery (querySet (parseQuery r.rawQuery) languageParam language) })

/-- The plugin value (`LangRedirect` struct); the `next` handler is
abstracted away (see `ServeResult.nextCalled`). -/
structure LangRedirect where
  config : Config
deriving Repr

/-- `New` validates the configuration and constructs the plugin. -/
def New (config : Config) : Except String LangRedirect :=
  if config.Languages = [] then Except.error "languages are required"
  else if config.DefaultLanguage = "" then Except.error "DefaultLanguage is required"
  else if config.LanguageStrategy = StrategyQuery ∧ config.LanguageParam = "" then
    Except.error "languageParam is required when LanguageStrategy is 'query'"
  else Except.ok { config := config }

/-- `parseAcceptLanguage`: split on commas, cut each part at the first
semicolon, trim whitespace. -/
def parseAcceptLanguage (acceptLanguage : String) : List String :=
  (goSplit acceptLanguage ',').map fun part =>
    trimSpace ((goSplit part ';').headD "")

/-- The nested loops of `getPreferredLanguage`: first candidate that is a
member of the supported list, else the fallback. -/
def matchFirst : List String → List String → String → String
  | [], _, fallback => fallback
  | lang :: rest, supported, fallback =>
    if lang ∈ supported then lang else matchFirst rest supported fallback

def LangRedirect.getPreferredLanguage (g : LangRedirect) (acceptLanguage : String) :
    String :=
  matchFirst (parseAcceptLanguage acceptLanguage) g.config.Languages
    g.config.DefaultLanguage

def headerStrategy : Strategy :=
  { GetLanguage := HeaderStrategy.GetLanguage
    SetLanguage := HeaderStrategy.SetLanguage }

def pathStrategy : Strategy :=
  { GetLanguage := PathStrategy.GetLanguage
    SetLanguage := PathStrategy.SetLanguage }

def queryStrategy (languageParam : String) : Strategy :=
  { GetLanguage := QueryStrategy.GetLanguage languageParam
    SetLanguage := QueryStrategy.SetLanguage languageParam }

/-- `getStrategy`: the string switch over the strategy selector. -/
def LangRedirect.getStrategy (g : LangRedirect) : Except String Strategy :=
  if g.config.LanguageStrategy = StrategyHeader then Except.ok headerStrategy
  else if g.config.LanguageStrategy = StrategyPath then Except.ok pathStrategy
  else if g.config.LanguageStrategy = StrategyQuery then
    Except.ok (queryStrategy g.config.LanguageParam)
  else Except.error ("invalid LanguageStrategy: " ++ g.config.LanguageStrategy)

/-- `ServeHTTP`, the per-request algorithm. -/
def LangRedirect.ServeHTTP (g : LangRedirect) (w : Response) (r : Request) :
    ServeResult :=
  let languageByHeader := g.getPreferredLanguage r.acceptLanguage
  if languageByHeader ≠ "" ∧
      (languageByHeader ≠ g.config.DefaultLanguage ∨
        g.config.DefaultLanguageHandling = true) then
    match g.getStrategy with
    | Except.error _ =>
      { response := Response.error 500 "Internal Server Error"
        request := r
        nextCalled := false }
    | Except.ok strategy =>
      let languageByRequest := strategy.GetLanguage r
      if languageByRequest = "" ∨ languageByRequest ≠ languageByHeader then
        let wr := strategy.SetLanguage w r languageByHeader
        if g.config.RedirectAfterHandling = true then
          { response := Response.redirect 302 (urlString wr.2)
            request := wr.2
            nextCalled := false }
        else
          { response := wr.1, request := wr.2, nextCalled := true }
      else
        { response := w, request := r, nextCalled := true }
  else
    { response := w, request := r, nextCalled := true }

/-- The handling condition of `ServeHTTP`: a non-empty resolved language
that is either not the fallback or has default-language handling on. -/
def handlingCond (g : LangRedirect) (r : Request) : Prop :=
  g.getPreferredLanguage r.acceptLanguage ≠ "" ∧
    (g.getPreferredLanguage r.acceptLanguage ≠ g.config.DefaultLanguage ∨
      g.config.DefaultLanguageHandling = true)

/-- A mutation occurs in the write step of `ServeHTTP`: the handling
condition holds, a strategy was produced, and the currently encoded
language is empty or differs from the resolved language. -/
def mutationOccurs (g : LangRedirect) (r : Request) : Prop :=
  handlingCond g r ∧
    ∃ s : Strategy, g.getStrategy = Except.ok s ∧
      (s.GetLanguage r = "" ∨ s.GetLanguage r ≠ g.getPreferredLanguage r.acceptLanguage)

/-! Concrete configurations and requests used by counterexamples and
witnesses. -/

/-- A configuration whose strategy selector is none of the three
recognized values. -/
def cfgInvalid : Config := ⟨["en", "de"], "en", false, "bogus", "lang", false⟩

def reqInvalid : Request := ⟨"de", "/about", ""⟩

/-- A typical configuration: header strategy, three supported tags. -/
def cfgNegotiate : Config := ⟨["en", "fr-CA", "de"], "en", false, "header", "lang", false⟩

def reqDefaultLang : Request := ⟨"en", "/about", ""⟩

/-- A configuration whose supported list contains the empty string. -/
def cfgEmptyTag : Config := ⟨["de", ""], "en", false, "header", "lang", false⟩

/-- A configuration whose only supported tag is the empty string. -/
def cfgEmptyTagOnly : Config := ⟨[""], "en", false, "header", "lang", false⟩

/-- A configuration whose fallback carries leading whitespace, so the
fallback is not a fixed point of resolution. -/
def cfgPadFallback : Config := ⟨["en"], " en", true, "header", "lang", false⟩

def reqPadFallback : Request := ⟨"zz", "/", ""⟩

/-- Path strategy with a supported tag longer than two characters. -/
def cfgPathDouble : Config := ⟨["en", "fr-CA", "de"], "en", false, "path", "lang", false⟩

def reqPathDouble : Request := ⟨"fr-CA", "/about", ""⟩

/-- Query strategy with redirect-after-handling enabled. -/
def cfgRedirectW : Config := ⟨["en", "de"], "en", false, "query", "lg", true⟩

def reqRedirectW : Request := ⟨"de", "/about", "a=1"⟩

/-! Basic lemmas about the string-helper models. -/

theorem dropWhile_head_not {α : Type} (p : α → Bool) :
    ∀ (l : List α) (c : α) (t : List α), l.dropWhile p = c :: t → p c = false := by
  intro l
  induction l with
  | nil => intro c t h; simp [List.dropWhile] at h
  | cons a as ih =>
    intro c t h
    by_cases hp : p a
    · rw [List.dropWhile_cons_of_pos hp] at h
      exact ih c t h
    · rw [List.dropWhile_cons_of_neg hp] at h
      cases h
      simpa using hp

theorem dropWhile_eq_self_of_head {α : Type} (p : α → Bool) (l : List α)
    (h : ∀ (c : α) (t : List α), l = c :: t → p c = false) : l.dropWhile p = l := by
  cases l with
  | nil => rfl
  | cons c t => rw [List.dropWhile_cons_of_neg]; simp [h c t rfl]

theorem dropWhile_parts {α : Type} (p : α → Bool) (l : List α) :
    ∃ s : List α, s ++ l.dropWhile p = l := by
  induction l with
  | nil => exact ⟨[], rfl⟩
  | cons a as ih =>
    by_cases hp : p a
    · obtain ⟨s, hs⟩ := ih
      exact ⟨a :: s, by rw [List.dropWhile_cons_of_pos hp]; simpa using hs⟩
    · exact ⟨[], by rw [List.dropWhile_cons_of_neg hp]; rfl⟩

theorem mem_dropWhile_subset {α : Type} (p : α → Bool) (l : List α) :
    ∀ c ∈ l.dropWhile p, c ∈ l := by
  intro c hc
  obtain ⟨s, hs⟩ := dropWhile_parts p l
  rw [← hs]
  exact List.mem_append_right s hc

theorem trimList_idem (l : List Char) : trimList (trimList l) = trimList l := by
  unfold trimList
  set w := Char.isWhitespace with hw
  set a := l.dropWhile w with ha
  set d := a.reverse.dropWhile w with hd
  have h1 : d.reverse.dropWhile w = d.reverse := by
    apply dropWhile_eq_self_of_head
    intro c t hct
    obtain ⟨s, hs⟩ := dropWhile_parts w a.reverse
    have haeq : a = d.reverse ++ s.reverse := by
      have := congrArg List.reverse hs
      simpa [List.reverse_append] using this.symm
    rw [hct] at haeq
    exact dropWhile_head_not w l c (t ++ s.reverse) (by rw [← ha, haeq]; simp)
  rw [h1]
  have h2 : d.dropWhile w = d := by
    apply dropWhile_eq_self_of_head
    intro c t hct
    exact dropWhile_head_not w a.reverse c t (by rw [← hd, hct])
  rw [List.reverse_reverse, h2]

theorem trimList_subset (l : List Char) : ∀ c ∈ trimList l, c ∈ l := by
  intro c hc
  unfold trimList at hc
  rw [List.mem_reverse] at hc
  have h1 := mem_dropWhile_subset Char.isWhitespace (l.dropWhile Char.isWhitespace).reverse c hc
  rw [List.mem_reverse] at h1
  exact mem_dropWhile_subset Char.isWhitespace l c h1

theorem stringMk_data (s : String) : String.mk s.data = s := by
  cases s
  rfl

theorem data_stringMk (l : List Char) : (String.mk l).data = l := rfl

/-! Lemmas about `splitChar`. -/

theorem splitChar_ne_nil (sep : Char) (l : List Char) : splitChar sep l ≠ [] := by
  induction l with
  | nil => simp [splitChar]
  | cons c cs ih =>
    unfold splitChar
    cases h : splitChar sep cs with
    | nil => simp
    | cons r rs =>
      by_cases hc : c = sep <;> simp [hc]

theorem splitChar_cons_of_eq (sep : Char) (cs : List Char) :
    splitChar sep (sep :: cs) = [] :: splitChar sep cs := by
  cases h : splitChar sep cs with
  | nil => exact absurd h (splitChar_ne_nil sep cs)
  | cons r rs => unfold splitChar; rw [h]; simp

theorem splitChar_cons_of_ne {c sep : Char} (h : c ≠ sep) (cs : List Char) :
    splitChar sep (c :: cs) =
      (c :: (splitChar sep cs).headD []) :: (splitChar sep cs).tail := by
  cases hh : splitChar sep cs with
  | nil => exact absurd hh (splitChar_ne_nil sep cs)
  | cons r rs => unfold splitChar; rw [hh]; simp [h]

theorem splitChar_head_tail (sep : Char) (l : List Char) :
    splitChar sep l = (splitChar sep l).headD [] :: (splitChar sep l).tail := by
  cases h : splitChar sep l with
  | nil => exact absurd h (splitChar_ne_nil sep l)
  | cons r rs => simp

theorem splitChar_no_sep {sep : Char} {l : List Char} (h : ∀ c ∈ l, c ≠ sep) :
    splitChar sep l = [l] := by
  induction l with
  | nil => rfl
  | cons c cs ih =>
    rw [splitChar_cons_of_ne (h c (List.mem_cons_self c cs)) cs]
    rw [ih fun x hx => h x (List.mem_cons_of_mem c hx)]
    rfl

theorem splitChar_append {sep : Char} {xs : List Char} (h : ∀ c ∈ xs, c ≠ sep)
    (ys : List Char) :
    splitChar sep (xs ++ ys) =
      (xs ++ (splitChar sep ys).headD []) :: (splitChar sep ys).tail := by
  induction xs with
  | nil => simpa using splitChar_head_tail sep ys
  | cons x xs ih =>
    rw [List.cons_append, splitChar_cons_of_ne (h x (List.mem_cons_self x xs))]
    rw [ih fun c hc => h c (List.mem_cons_of_mem x hc)]
    simp

theorem mem_splitChar_not_sep {sep : Char} :
    ∀ (l : List Char) (piece : List Char), piece ∈ splitChar sep l →
      ∀ c ∈ piece, c ≠ sep := by
  intro l
  induction l with
  | nil =>
    intro piece hp c hc
    simp [splitChar] at hp
    subst hp
    simp at hc
  | cons a as ih =>
    intro piece hp c hc
    by_cases ha : a = sep
    · subst ha
      rw [splitChar_cons_of_eq] at hp
      rcases List.mem_cons.mp hp with h0 | h0
      · subst h0; simp at hc
      · exact ih piece h0 c hc
    · rw [splitChar_cons_of_ne ha] at hp
      rcases List.mem_cons.mp hp with h0 | h0
      · subst h0
        rcases List.mem_cons.mp hc with h1 | h1
        · subst h1; exact ha
        · exact ih _ (by rw [splitChar_head_tail sep as]; exact List.mem_cons_self _ _) c h1
      · exact ih piece (by rw [splitChar_head_tail sep as]; exact List.mem_cons_of_mem _ h0) c hc

theorem mem_splitChar_subset {sep : Char} :
    ∀ (l : List Char) (piece : List Char), piece ∈ splitChar sep l →
      ∀ c ∈ piece, c ∈ l := by
  intro l
  induction l with
  | nil =>
    intro piece hp c hc
    simp [splitChar] at hp
    subst hp
    simp at hc
  | cons a as ih =>
    intro piece hp c hc
    by_cases ha : a = sep
    · subst ha
      rw [splitChar_cons_of_eq] at hp
      rcases List.mem_cons.mp hp with h0 | h0
      · subst h0; simp at hc
      · exact List.mem_cons_of_mem _ (ih piece h0 c hc)
    · rw [splitChar_cons_of_ne ha] at hp
      rcases List.mem_cons.mp hp with h0 | h0
      · subst h0
        rcases List.mem_cons.mp hc with h1 | h1
        · subst h1; exact List.mem_cons_self _ _
        · exact List.mem_cons_of_mem _
            (ih _ (by rw [splitChar_head_tail sep as]; exact List.mem_cons_self _ _) c h1)
      · exact List.mem_cons_of_mem _
          (ih piece (by rw [splitChar_head_tail sep as]; exact List.mem_cons_of_mem _ h0) c hc)

/-! Lemmas about `matchFirst`. -/

theorem matchFirst_cases (ls supported : List String) (fallback : String) :
    matchFirst ls supported fallback = fallback ∨
      (matchFirst ls supported fallback ∈ ls ∧
        matchFirst ls supported fallback ∈ supported) := by
  induction ls with
  | nil => left; rfl
  | cons l rest ih =>
    by_cases h : l ∈ supported
    · right
      rw [matchFirst, if_pos h]
      exact ⟨List.mem_cons_self l rest, h⟩
    · rw [matchFirst, if_neg h]
      rcases ih with h0 | ⟨h1, h2⟩
      · left; exact h0
      · right; exact ⟨List.mem_cons_of_mem l h1, h2⟩

theorem matchFirst_no_match {ls supported : List String} (fallback : String)
    (h : ∀ x ∈ ls, x ∉ supported) : matchFirst ls supported fallback = fallback := by
  induction ls with
  | nil => rfl
  | cons l rest ih =>
    rw [matchFirst, if_neg (h l (List.mem_cons_self l rest))]
    exact ih fun x hx => h x (List.mem_cons_of_mem l hx)

theorem matchFirst_first_match {supported : List String} (fallback : String)
    (pre : List String) {l : String} (post : List String)
    (hpre : ∀ x ∈ pre, x ∉ supported) (hl : l ∈ supported) :
    matchFirst (pre ++ l :: post) supported fallback = l := by
  induction pre with
  | nil => rw [List.nil_append, matchFirst, if_pos hl]
  | cons x xs ih =>
    rw [List.cons_append, matchFirst, if_neg (hpre x (List.mem_cons_self x xs))]
    exact ih fun y hy => hpre y (List.mem_cons_of_mem x hy)

/-! Lemmas about `parseAcceptLanguage`: every candidate it produces is free
of commas and semicolons and is whitespace-trimmed, and such a string
parses back to the one-element list containing itself. -/

theorem parseAcceptLanguage_mem {s cand : String}
    (h : cand ∈ parseAcceptLanguage s) :
    (∀ c ∈ cand.data, c ≠ ',' ∧ c ≠ ';') ∧ trimList cand.data = cand.data := by
  unfold parseAcceptLanguage goSplit at h
  rw [List.map_map, List.mem_map] at h
  obtain ⟨piece, hpiece, hcand⟩ := h
  cases hh : splitChar ';' (String.mk piece).data with
  | nil => exact absurd hh (splitChar_ne_nil _ _)
  | cons h0 t0 =>
    have hcand2 : cand = String.mk (trimList h0) := by
      rw [← hcand]
      simp [goSplit, trimSpace, hh]
    have hdata : cand.data = trimList h0 := by rw [hcand2]
    constructor
    · intro c hc
      rw [hdata] at hc
      have hmem0 : c ∈ h0 := trimList_subset h0 c hc
      have hmempiece : c ∈ piece :=
        mem_splitChar_subset (String.mk piece).data h0
          (by rw [hh]; exact List.mem_cons_self _ _) c hmem0
      refine ⟨mem_splitChar_not_sep s.data piece hpiece c hmempiece, ?_⟩
      exact mem_splitChar_not_sep (String.mk piece).data h0
        (by rw [hh]; exact List.mem_cons_self _ _) c hmem0
    · rw [hdata]
      exact trimList_idem h0

theorem parseAcceptLanguage_single {s : String}
    (h1 : ∀ c ∈ s.data, c ≠ ',' ∧ c ≠ ';')
    (h2 : trimList s.data = s.data) :
    parseAcceptLanguage s = [s] := by
  unfold parseAcceptLanguage goSplit
  rw [splitChar_no_sep fun c hc => (h1 c hc).1]
  simp only [List.map_cons, List.map_nil]
  rw [splitChar_no_sep fun c hc => (h1 c hc).2]
  simp only [List.map_cons, List.map_nil, List.headD_cons]
  simp [trimSpace, data_stringMk, h2, stringMk_data]

/-- Resolution applied to an already-resolved value is the identity,
provided the configured fallback itself resolves to itself. -/
theorem getPreferredLanguage_stable (g : LangRedirect)
    (hd : g.getPreferredLanguage g.config.DefaultLanguage = g.config.DefaultLanguage)
    (h : String) :
    g.getPreferredLanguage (g.getPreferredLanguage h) = g.getPreferredLanguage h := by
  rcases matchFirst_cases (parseAcceptLanguage h) g.config.Languages
      g.config.DefaultLanguage with hc | ⟨hmem, hsup⟩
  · unfold LangRedirect.getPreferredLanguage at *
    rw [hc]
    exact hd
  · unfold LangRedirect.getPreferredLanguage at *
    obtain ⟨hfree, htrim⟩ := parseAcceptLanguage_mem hmem
    rw [parseAcceptLanguage_single hfree htrim]
    rw [matchFirst, if_pos hsup]

/-- Under the Header strategy with redirect disabled, one `ServeHTTP`
invocation forwards to `next` with the response untouched and the
`Accept-Language` header rewritten to the resolved language exactly when
the handling condition holds. -/
theorem serveHTTP_header_eq (g : LangRedirect)
    (hS : g.config.LanguageStrategy = StrategyHeader)
    (hR : g.config.RedirectAfterHandling = false)
    (w : Response) (r : Request) :
    g.ServeHTTP w r =
      { response := w
        request :=
          { r with
            acceptLanguage :=
              if g.getPreferredLanguage r.acceptLanguage ≠ "" ∧
                  (g.getPreferredLanguage r.acceptLanguage ≠ g.config.DefaultLanguage ∨
                    g.config.DefaultLanguageHandling = true) then
                g.getPreferredLanguage r.acceptLanguage
              else r.acceptLanguage }
        nextCalled := true } := by
  have hgs : g.getStrategy = Except.ok headerStrategy := by
    unfold LangRedirect.getStrategy
    rw [if_pos hS]
  unfold LangRedirect.ServeHTTP
  rw [hgs]
  by_cases hc : g.getPreferredLanguage r.acceptLanguage ≠ "" ∧
      (g.getPreferredLanguage r.acceptLanguage ≠ g.config.DefaultLanguage ∨
        g.config.DefaultLanguageHandling = true)
  · rw [if_pos hc, if_pos hc]
    simp only [headerStrategy, HeaderStrategy.GetLanguage, HeaderStrategy.SetLanguage]
    by_cases hm : r.acceptLanguage = "" ∨
        r.acceptLanguage ≠ g.getPreferredLanguage r.acceptLanguage
    · rw [if_pos hm, hR]
      simp
    · rw [if_neg hm]
      push_neg at hm
      rw [← hm.2]
  · rw [if_neg hc, if_neg hc]

theorem data_append (a b : String) : (a ++ b).data = a.data ++ b.data := rfl

theorem length_stringMk (l : List Char) : (String.mk l).length = l.length := rfl

/-- Splitting an absolute path `/` ++ segment ++ rest on slashes, when the
segment itself contains no slash. -/
theorem goSplit_slash (s rest : String) (hs : ∀ c ∈ s.data, c ≠ '/') :
    goSplit ("/" ++ s ++ rest) '/' =
      "" :: String.mk (s.data ++ (splitChar '/' rest.data).headD []) ::
        ((splitChar '/' rest.data).tail.map String.mk) := by
  unfold goSplit
  have hd : ("/" ++ s ++ rest).data = '/' :: (s.data ++ rest.data) := rfl
  rw [hd, splitChar_cons_of_eq, splitChar_append hs]
  simp

/-- The strategy switch only ever produces one of the three variants. -/
theorem getStrategy_ok_cases (g : LangRedirect) (s : Strategy)
    (h : g.getStrategy = Except.ok s) :
    s = headerStrategy ∨ s = pathStrategy ∨ s = queryStrategy g.config.LanguageParam := by
  unfold LangRedirect.getStrategy at h
  split_ifs at h
  · exact Or.inl (Except.ok.inj h).symm
  · exact Or.inr (Or.inl (Except.ok.inj h).symm)
  · exact Or.inr (Or.inr (Except.ok.inj h).symm)

/-- No variant's write operation touches the response writer. -/
theorem setLanguage_fst (g : LangRedirect) (s : Strategy)
    (h : g.getStrategy = Except.ok s) (w : Response) (r : Request) (language : String) :
    (s.SetLanguage w r language).1 = w := by
  rcases getStrategy_ok_cases g s h with h0 | h0 | h0 <;> subst h0
  · rfl
  · unfold pathStrategy PathStrategy.SetLanguage
    dsimp only
    split <;> rfl
  · rfl

/-! Claim theorems. -/

/-- C1, counterexample: with the unrecognized selector "bogus" (and
otherwise valid fields), `New` happily produces an instance, and the
"invalid strategy" failure only surfaces at request time as a 500
response, contradicting the claim that construction fails and the
failure is never deferred to request time. -/
theorem C1_counterexample :
    cfgInvalid.LanguageStrategy ≠ StrategyHeader ∧
      cfgInvalid.LanguageStrategy ≠ StrategyPath ∧
      cfgInvalid.LanguageStrategy ≠ StrategyQuery ∧
      New cfgInvalid = Except.ok { config := cfgInvalid } ∧
      LangRedirect.ServeHTTP { config := cfgInvalid } Response.empty reqInvalid =
        { response := Response.error 500 "Internal Server Error"
          request := reqInvalid
          nextCalled := false } := by
  refine ⟨by decide, by decide, by decide, rfl, by decide⟩

/-- C1 (amended): construction does not validate the strategy selector;
for an unrecognized selector (with the other validations passing)
`New` produces an instance, and the failure is deferred to request
time, where `getStrategy` yields the "invalid LanguageStrategy" error
and `ServeHTTP` answers 500 without forwarding. -/
theorem C1_theorem (cfg : Config)
    (h1 : cfg.LanguageStrategy ≠ StrategyHeader)
    (h2 : cfg.LanguageStrategy ≠ StrategyPath)
    (h3 : cfg.LanguageStrategy ≠ StrategyQuery) :
    LangRedirect.getStrategy { config := cfg } =
        Except.error ("invalid LanguageStrategy: " ++ cfg.LanguageStrategy) ∧
      (cfg.Languages ≠ [] → cfg.DefaultLanguage ≠ "" → New cfg = Except.ok { config := cfg }) ∧
      ∀ (w : Response) (r : Request), handlingCond { config := cfg } r →
        LangRedirect.ServeHTTP { config := cfg } w r =
          { response := Response.error 500 "Internal Server Error"
            request := r
            nextCalled := false } := by
  have hgs : LangRedirect.getStrategy { config := cfg } =
      Except.error ("invalid LanguageStrategy: " ++ cfg.LanguageStrategy) := by
    unfold LangRedirect.getStrategy
    rw [if_neg h1, if_neg h2, if_neg h3]
  refine ⟨hgs, ?_, ?_⟩
  · intro hL hD
    unfold New
    rw [if_neg hL, if_neg hD, if_neg fun hq => h3 hq.1]
  · intro w r hcond
    unfold handlingCond at hcond
    unfold LangRedirect.ServeHTTP
    rw [if_pos hcond, hgs]

/-- C1, witness for the amended theorem at the concrete configuration
`cfgInvalid`. -/
theorem C1_witness :
    LangRedirect.getStrategy { config := cfgInvalid } =
        Except.error ("invalid LanguageStrategy: " ++ cfgInvalid.LanguageStrategy) ∧
      New cfgInvalid = Except.ok { config := cfgInvalid } := by
  have h := C1_theorem cfgInvalid (by decide) (by decide) (by decide)
  exact ⟨h.1, h.2.1 (by decide) (by decide)⟩

/-- C2, counterexample: with the empty string among the supported
languages and a non-empty fallback, the header "fr," resolves to the
empty string — the resolved language is not always non-empty. -/
theorem C2_counterexample :
    cfgEmptyTag.DefaultLanguage ≠ "" ∧
      LangRedirect.getPreferredLanguage { config := cfgEmptyTag } "fr," = "" := by
  exact ⟨by decide, by decide⟩

/-- C2 (amended): for every configuration whose fallback and supported
tags are all non-empty, the resolved language is a non-empty string,
whatever the raw preference header. -/
theorem C2_theorem (g : LangRedirect) (acceptLanguage : String)
    (hd : g.config.DefaultLanguage ≠ "")
    (hl : ∀ l ∈ g.config.Languages, l ≠ "") :
    g.getPreferredLanguage acceptLanguage ≠ "" := by
  rcases matchFirst_cases (parseAcceptLanguage acceptLanguage) g.config.Languages
      g.config.DefaultLanguage with hc | ⟨_, hsup⟩
  · unfold LangRedirect.getPreferredLanguage
    rw [hc]
    exact hd
  · unfold LangRedirect.getPreferredLanguage
    exact hl _ hsup

/-- C2, witness at a concrete configuration and header. -/
theorem C2_witness :
    LangRedirect.getPreferredLanguage { config := cfgNegotiate } "zz" ≠ "" :=
  C2_theorem { config := cfgNegotiate } "zz" (by decide) (by decide)

/-- C3: the matcher returns the first candidate, in candidate-sequence
order, that is a member of the supported set, and the fallback when no
candidate matches; in particular supported ["en", "fr-CA", "de"] with
header "de,fr-CA" resolves to "de". -/
theorem C3_theorem :
    (∀ (supported : List String) (fallback : String) (pre : List String)
        (l : String) (post : List String),
        (∀ x ∈ pre, x ∉ supported) → l ∈ supported →
        matchFirst (pre ++ l :: post) supported fallback = l) ∧
      (∀ (ls supported : List String) (fallback : String),
        (∀ x ∈ ls, x ∉ supported) → matchFirst ls supported fallback = fallback) ∧
      parseAcceptLanguage "de,fr-CA" = ["de", "fr-CA"] ∧
      LangRedirect.getPreferredLanguage { config := cfgNegotiate } "de,fr-CA" = "de" :=
  ⟨fun supported fallback pre l post h1 h2 =>
      matchFirst_first_match fallback pre post h1 h2,
    fun ls supported fallback h => matchFirst_no_match fallback h,
    by decide, by decide⟩

/-- C3, witness: the first-match clause applied at concrete lists. -/
theorem C3_witness :
    matchFirst (["fr"] ++ "de" :: ["xx"]) ["en", "fr-CA", "de"] "en" = "de" :=
  C3_theorem.1 ["en", "fr-CA", "de"] "en" ["fr"] "de" ["xx"] (by decide) (by decide)

/-- C5: with default-language handling disabled, a request whose resolved
language equals the fallback is forwarded with request and response
untouched, whatever the configured strategy. -/
theorem C5_theorem (g : LangRedirect) (w : Response) (r : Request)
    (hflag : g.config.DefaultLanguageHandling = false)
    (hres : g.getPreferredLanguage r.acceptLanguage = g.config.DefaultLanguage) :
    g.ServeHTTP w r = { response := w, request := r, nextCalled := true } := by
  have hneg : ¬(g.getPreferredLanguage r.acceptLanguage ≠ "" ∧
      (g.getPreferredLanguage r.acceptLanguage ≠ g.config.DefaultLanguage ∨
        g.config.DefaultLanguageHandling = true)) := by
    rintro ⟨h1, h2⟩
    rcases h2 with h2 | h2
    · exact h2 hres
    · rw [hflag] at h2
      exact Bool.false_ne_true h2
  unfold LangRedirect.ServeHTTP
  rw [if_neg hneg]

/-- C5, witness at a concrete configuration and request resolving to the
fallback. -/
theorem C5_witness :
    LangRedirect.ServeHTTP { config := cfgNegotiate } Response.empty reqDefaultLang =
      { response := Response.empty, request := reqDefaultLang, nextCalled := true } :=
  C5_theorem { config := cfgNegotiate } Response.empty reqDefaultLang (by decide) (by decide)

/-- C6, counterexample: a non-empty supported set may contain the empty
string, and then the empty header resolves to that empty tag, not to
the (non-empty) fallback. -/
theorem C6_counterexample :
    cfgEmptyTagOnly.Languages ≠ [] ∧
      cfgEmptyTagOnly.DefaultLanguage ≠ "" ∧
      LangRedirect.getPreferredLanguage { config := cfgEmptyTagOnly } "" ≠
        cfgEmptyTagOnly.DefaultLanguage := by
  exact ⟨by decide, by decide, by decide⟩

/-- C6 (amended): whenever the empty string is not among the supported
languages, the empty preference header resolves to the fallback. -/
theorem C6_theorem (g : LangRedirect) (h : "" ∉ g.config.Languages) :
    g.getPreferredLanguage "" = g.config.DefaultLanguage := by
  unfold LangRedirect.getPreferredLanguage
  have hparse : parseAcceptLanguage "" = [""] := rfl
  rw [hparse]
  simp [matchFirst, h]

/-- C6, witness at a concrete configuration. -/
theorem C6_witness :
    LangRedirect.getPreferredLanguage { config := cfgNegotiate } "" =
      cfgNegotiate.DefaultLanguage :=
  C6_theorem { config := cfgNegotiate } (by decide)

/-- C4: whenever a mutation occurs in the write step and redirect-after-
handling is enabled, `ServeHTTP` writes a 302 redirect to the mutated
request's own URL and never invokes the next handler; in every other
handled or skipped case (strategy construction succeeding when it is
consulted) the next handler is invoked. -/
theorem C4_theorem (g : LangRedirect) (w : Response) (r : Request) :
    (mutationOccurs g r → g.config.RedirectAfterHandling = true →
      (g.ServeHTTP w r).response =
          Response.redirect 302 (urlString (g.ServeHTTP w r).request) ∧
        (g.ServeHTTP w r).nextCalled = false) ∧
      ((handlingCond g r → ∃ s : Strategy, g.getStrategy = Except.ok s) →
        ¬(mutationOccurs g r ∧ g.config.RedirectAfterHandling = true) →
        (g.ServeHTTP w r).nextCalled = true) := by
  by_cases hc : handlingCond g r
  · rcases hgs : g.getStrategy with e | s
    · constructor
      · rintro ⟨_, s0, hs0, _⟩ _
        rw [hgs] at hs0
        cases hs0
      · intro hok _
        obtain ⟨s0, hs0⟩ := hok hc
        cases hs0
    · have hc' := hc
      unfold handlingCond at hc'
      by_cases hm : s.GetLanguage r = "" ∨
          s.GetLanguage r ≠ g.getPreferredLanguage r.acceptLanguage
      · by_cases hr : g.config.RedirectAfterHandling = true
        · have hserve : g.ServeHTTP w r =
              { response := Response.redirect 302
                  (urlString (s.SetLanguage w r (g.getPreferredLanguage r.acceptLanguage)).2)
                request := (s.SetLanguage w r (g.getPreferredLanguage r.acceptLanguage)).2
                nextCalled := false } := by
            unfold LangRedirect.ServeHTTP
            rw [if_pos hc', hgs]
            dsimp only
            rw [if_pos hm, if_pos hr]
          constructor
          · intro _ _
            rw [hserve]
            exact ⟨rfl, rfl⟩
          · intro _ hno
            exact absurd ⟨⟨hc, s, hgs, hm⟩, hr⟩ hno
        · have hserve : g.ServeHTTP w r =
              { response := (s.SetLanguage w r (g.getPreferredLanguage r.acceptLanguage)).1
                request := (s.SetLanguage w r (g.getPreferredLanguage r.acceptLanguage)).2
                nextCalled := true } := by
            unfold LangRedirect.ServeHTTP
            rw [if_pos hc', hgs]
            dsimp only
            rw [if_pos hm, if_neg hr]
          constructor
          · intro _ hr'
            exact absurd hr' hr
          · intro _ _
            rw [hserve]
      · have hserve : g.ServeHTTP w r =
            { response := w, request := r, nextCalled := true } := by
          unfold LangRedirect.ServeHTTP
          rw [if_pos hc', hgs]
          dsimp only
          rw [if_neg hm]
        constructor
        · rintro ⟨_, s0, hs0, hm0⟩ _
          rw [hgs] at hs0
          cases hs0
          exact absurd hm0 hm
        · intro _ _
          rw [hserve]
  · have hc' : ¬(g.getPreferredLanguage r.acceptLanguage ≠ "" ∧
        (g.getPreferredLanguage r.acceptLanguage ≠ g.config.DefaultLanguage ∨
          g.config.DefaultLanguageHandling = true)) := hc
    have hserve : g.ServeHTTP w r =
        { response := w, request := r, nextCalled := true } := by
      unfold LangRedirect.ServeHTTP
      rw [if_neg hc']
    constructor
    · rintro ⟨hcond, _⟩ _
      exact absurd hcond hc
    · intro _ _
      rw [hserve]

/-- C4, witness: a query-strategy configuration with redirect enabled and
a request that gets mutated; the theorem yields the 302 redirect to
the mutated URL with the next handler skipped. -/
theorem C4_witness :
    (LangRedirect.ServeHTTP { config := cfgRedirectW } Response.empty reqRedirectW).response =
        Response.redirect 302
          (urlString (LangRedirect.ServeHTTP { config := cfgRedirectW }
            Response.empty reqRedirectW).request) ∧
      (LangRedirect.ServeHTTP { config := cfgRedirectW } Response.empty reqRedirectW).nextCalled =
        false :=
  (C4_theorem { config := cfgRedirectW } Response.empty reqRedirectW).1
    ⟨by unfold handlingCond; decide, queryStrategy "lg", rfl, by decide⟩ rfl

/-- C7, counterexample: under the Header strategy with redirect disabled,
a fallback that is not whitespace-trimmed (" en" with supported
["en"]) makes the second application rewrite the header again, so
applying the engine twice does not yield the header value of applying
it once. -/
theorem C7_counterexample :
    cfgPadFallback.LanguageStrategy = StrategyHeader ∧
      cfgPadFallback.RedirectAfterHandling = false ∧
      (LangRedirect.ServeHTTP { config := cfgPadFallback }
            (LangRedirect.ServeHTTP { config := cfgPadFallback } Response.empty
              reqPadFallback).response
            (LangRedirect.ServeHTTP { config := cfgPadFallback } Response.empty
              reqPadFallback).request).request.acceptLanguage ≠
        (LangRedirect.ServeHTTP { config := cfgPadFallback } Response.empty
          reqPadFallback).request.acceptLanguage := by
  exact ⟨by decide, by decide, by decide⟩

/-- C7 (amended): under the Header strategy with redirect disabled, and
provided the configured fallback resolves to itself (true of any
comma-free, semicolon-free, whitespace-trimmed fallback tag), applying
the engine twice yields the same final Accept-Language header value as
applying it once. -/
theorem C7_theorem (g : LangRedirect) (w : Response) (r : Request)
    (hS : g.config.LanguageStrategy = StrategyHeader)
    (hR : g.config.RedirectAfterHandling = false)
    (hstable : g.getPreferredLanguage g.config.DefaultLanguage = g.config.DefaultLanguage) :
    (g.ServeHTTP (g.ServeHTTP w r).response (g.ServeHTTP w r).request).request.acceptLanguage =
      (g.ServeHTTP w r).request.acceptLanguage := by
  rw [serveHTTP_header_eq g hS hR w r]
  by_cases hc : g.getPreferredLanguage r.acceptLanguage ≠ "" ∧
      (g.getPreferredLanguage r.acceptLanguage ≠ g.config.DefaultLanguage ∨
        g.config.DefaultLanguageHandling = true)
  · rw [if_pos hc]
    rw [serveHTTP_header_eq g hS hR]
    dsimp only
    rw [getPreferredLanguage_stable g hstable r.acceptLanguage]
    rw [if_pos hc]
  · rw [if_neg hc]
    rw [serveHTTP_header_eq g hS hR]
    dsimp only
    rw [if_neg hc]

/-- C7, witness at a well-formed configuration whose fallback resolves to
itself. -/
theorem C7_witness :
    (LangRedirect.ServeHTTP { config := cfgNegotiate }
          (LangRedirect.ServeHTTP { config := cfgNegotiate } Response.empty
            reqPathDouble).response
          (LangRedirect.ServeHTTP { config := cfgNegotiate } Response.empty
            reqPathDouble).request).request.acceptLanguage =
      (LangRedirect.ServeHTTP { config := cfgNegotiate } Response.empty
        reqPathDouble).request.acceptLanguage :=
  C7_theorem { config := cfgNegotiate } Response.empty reqPathDouble (by decide) (by decide)
    (by decide)

/-- C8: the Path strategy's read returns the first path segment exactly
when it exists and is exactly 2 characters long (else empty), and its
write maps "/" to "/" ++ tag and otherwise prepends "/" ++ tag ahead of
the existing path; in particular "/about" with "en" becomes
"/en/about". -/
theorem C8_theorem :
    (∀ (al q s rest : String), (∀ c ∈ s.data, c ≠ '/') →
        (rest = "" ∨ ∃ t : String, rest = "/" ++ t) →
        PathStrategy.GetLanguage { acceptLanguage := al, path := "/" ++ s ++ rest, rawQuery := q } =
          if s.length = 2 then s else "") ∧
      (∀ (w : Response) (r : Request) (language : String), r.path = "/" →
        (PathStrategy.SetLanguage w r language).2.path = "/" ++ language) ∧
      (∀ (w : Response) (r : Request) (language : String), r.path ≠ "/" →
        (PathStrategy.SetLanguage w r language).2.path = "/" ++ language ++ r.path) ∧
      (PathStrategy.SetLanguage Response.empty
          { acceptLanguage := "", path := "/about", rawQuery := "" } "en").2.path = "/en/about" := by
  refine ⟨?_, ?_, ?_, by decide⟩
  · intro al q s rest hs hrest
    unfold PathStrategy.GetLanguage
    rcases hrest with h0 | ⟨t, ht⟩
    · subst h0
      rw [show ({ acceptLanguage := al, path := "/" ++ s ++ "", rawQuery := q } : Request).path =
          "/" ++ s ++ "" from rfl]
      rw [goSplit_slash s "" hs]
      have hempty : splitChar '/' ("" : String).data = [[]] := rfl
      rw [hempty]
      simp [stringMk_data]
    · subst ht
      rw [show ({ acceptLanguage := al, path := "/" ++ s ++ ("/" ++ t), rawQuery := q } : Request).path =
          "/" ++ s ++ ("/" ++ t) from rfl]
      rw [goSplit_slash s ("/" ++ t) hs]
      have hslash : ("/" ++ t : String).data = '/' :: t.data := rfl
      rw [hslash, splitChar_cons_of_eq]
      simp [stringMk_data]
  · intro w r language hp
    unfold PathStrategy.SetLanguage
    rw [if_pos hp]
  · intro w r language hp
    unfold PathStrategy.SetLanguage
    rw [if_neg hp]

/-- C8, witness: the read clause at segment "en" with remainder "/about",
and the write clauses at concrete requests. -/
theorem C8_witness :
    PathStrategy.GetLanguage
        { acceptLanguage := "", path := "/" ++ "en" ++ "/about", rawQuery := "" } =
        (if ("en" : String).length = 2 then "en" else "") ∧
      (PathStrategy.SetLanguage Response.empty
          { acceptLanguage := "", path := "/", rawQuery := "" } "de").2.path = "/" ++ "de" :=
  ⟨C8_theorem.1 "" "" "en" "/about" (by decide) (Or.inr ⟨"about", rfl⟩),
    C8_theorem.2.1 Response.empty { acceptLanguage := "", path := "/", rawQuery := "" } "de" rfl⟩

/-- C9: the Path strategy's read only ever returns the empty string or a
2-character segment, so a resolved tag like "fr-CA" is never read back
as already encoded; applying the engine twice to path "/about" with
resolved "fr-CA" yields "/fr-CA/fr-CA/about" — Header-strategy
idempotence does not carry over to the Path strategy. -/
theorem C9_theorem :
    (∀ r : Request, PathStrategy.GetLanguage r = "" ∨
        (PathStrategy.GetLanguage r).length = 2) ∧
      (LangRedirect.ServeHTTP { config := cfgPathDouble } Response.empty
          reqPathDouble).request.path = "/fr-CA/about" ∧
      (LangRedirect.ServeHTTP { config := cfgPathDouble }
          (LangRedirect.ServeHTTP { config := cfgPathDouble } Response.empty
            reqPathDouble).response
          (LangRedirect.ServeHTTP { config := cfgPathDouble } Response.empty
            reqPathDouble).request).request.path = "/fr-CA/fr-CA/about" := by
  refine ⟨?_, by decide, by decide⟩
  intro r
  unfold PathStrategy.GetLanguage
  rcases hsplit : goSplit r.path '/' with _ | ⟨a, rest⟩
  · exact Or.inl rfl
  · rcases rest with _ | ⟨b, t⟩
    · exact Or.inl rfl
    · by_cases hb : b.length = 2
      · right
        simp [hb]
      · left
        simp [hb]

/-- C10: none of the three strategies' write operations touches the
response writer, and each mutates only its own channel of the request;
the response is only ever written by the redirect step or the
internal-error branch of `ServeHTTP`. -/
theorem C10_theorem (w : Response) (r : Request) (language languageParam : String) :
    HeaderStrategy.SetLanguage w r language = (w, { r with acceptLanguage := language }) ∧
      ((PathStrategy.SetLanguage w r language).1 = w ∧
        (PathStrategy.SetLanguage w r language).2.acceptLanguage = r.acceptLanguage ∧
        (PathStrategy.SetLanguage w r language).2.rawQuery = r.rawQuery) ∧
      ((QueryStrategy.SetLanguage languageParam w r language).1 = w ∧
        (QueryStrategy.SetLanguage languageParam w r language).2.acceptLanguage =
          r.acceptLanguage ∧
        (QueryStrategy.SetLanguage languageParam w r language).2.path = r.path) ∧
      ∀ g : LangRedirect, (g.ServeHTTP w r).response = w ∨
        (∃ location, (g.ServeHTTP w r).response = Response.redirect 302 location) ∨
        (g.ServeHTTP w r).response = Response.error 500 "Internal Server Error" := by
  refine ⟨rfl, ?_, ⟨rfl, rfl, rfl⟩, ?_⟩
  · unfold PathStrategy.SetLanguage
    split <;> exact ⟨rfl, rfl, rfl⟩
  · intro g
    by_cases hc : g.getPreferredLanguage r.acceptLanguage ≠ "" ∧
        (g.getPreferredLanguage r.acceptLanguage ≠ g.config.DefaultLanguage ∨
          g.config.DefaultLanguageHandling = true)
    · rcases hgs : g.getStrategy with e | s
      · right
        right
        unfold LangRedirect.ServeHTTP
        rw [if_pos hc, hgs]
      · by_cases hm : s.GetLanguage r = "" ∨
            s.GetLanguage r ≠ g.getPreferredLanguage r.acceptLanguage
        · by_cases hr : g.config.RedirectAfterHandling = true
          · right
            left
            refine ⟨urlString (s.SetLanguage w r (g.getPreferredLanguage r.acceptLanguage)).2, ?_⟩
            unfold LangRedirect.ServeHTTP
            rw [if_pos hc, hgs]
            dsimp only
            rw [if_pos hm, if_pos hr]
          · left
            unfold LangRedirect.ServeHTTP
            rw [if_pos hc, hgs]
            dsimp only
            rw [if_pos hm, if_neg hr]
            exact setLanguage_fst g s hgs w r _
        · left
          unfold LangRedirect.ServeHTTP
          rw [if_pos hc, hgs]
          dsimp only
          rw [if_neg hm]
    · left
      unfold LangRedirect.ServeHTTP
      rw [if_neg hc]

